import Mathlib

/-!
Verification of the identity-matching engine of `realtime-reid`
(`src/realtime_reid/classifier.py`, class `PersonReID`).

The matcher state is a growing store of embeddings (`self.embeddings`, a
torch tensor of shape `[N, D]`, modelled as a list of rational row vectors),
a parallel list of integer identity labels (`self.ids`), and a counter
(`self.current_max_id`).  The torch primitives that the class calls
(`torch.nn.CosineSimilarity(dim=1, eps=1e-6)` and `torch.cdist(:, :, p=2)`)
are external library functions; they are modelled as an explicit pair of
row-scoring functions passed to the operations, since every property of the
matching logic holds uniformly in the scores those primitives produce.
`torch.max(results, dim=0)` is modelled by `torchMax`, which returns the
maximum value together with the index of its first occurrence, exactly as
documented for `torch.max`.  A torch shape error raised when the target row
length disagrees with the stored row length is modelled as the error value
`"DimensionMismatchError"`; the Python `assert` at the end of
`_update_embeddings` is modelled as the error value `"AssertionError"`, and
Python list indexing out of range as `"IndexError"`.
-/

namespace RealtimeReid

/-- An embedding row: one fixed-length appearance feature vector. -/
abbrev Vec := List ℚ

/-- The two torch scoring primitives used by `calculate_score`:
`cos_scorer` models `torch.nn.CosineSimilarity(dim=1, eps=1e-6)` applied to
the target and one stored row, `cdist` models `torch.cdist(target, row, p=2)`.
The matcher treats both as black boxes producing one score per stored row. -/
structure TorchScorers where
  cos_scorer : Vec → Vec → ℚ
  cdist : Vec → Vec → ℚ

/-- `self.CONFIDENT_THRESHOLD = dict(extreme=0.95, normal=0.70)`. -/
structure ConfidentThreshold where
  extreme : ℚ
  normal : ℚ

def CONFIDENT_THRESHOLD : ConfidentThreshold :=
  { extreme := 95 / 100, normal := 70 / 100 }

/-- The mutable state of a `PersonReID` object: the embedding store, the
identity label list and the next-identity counter. -/
structure PersonReID where
  embeddings : List Vec
  ids : List Nat
  current_max_id : Nat
deriving Repr, DecidableEq

/-- `PersonReID.__init__`: the constructor optionally seeds `self.embeddings`
from a tensor (either loaded from `from_file` or given as `from_tensor`;
the file load is I/O, so the seed models the loaded value).  Whatever the
seed, the source always sets `self.ids = []` and `self.current_max_id = 0`. -/
def PersonReID.init (from_tensor : Option (List Vec)) : PersonReID :=
  { embeddings := from_tensor.getD []
    ids := []
    current_max_id := 0 }

/-- `torch.max(results, dim=0)` on a one-dimensional tensor: the maximum
value and the index of its first occurrence (torch documents that with
several maximal values the index of the first one is returned).  The source
only applies it to non-empty score tensors; the `[]` case is a junk value. -/
def torchMax : List ℚ → ℚ × Nat
  | [] => (0, 0)
  | [x] => (x, 0)
  | x :: y :: xs =>
    let p := torchMax (y :: xs)
    if p.1 > x then (p.1, p.2 + 1) else (x, 0)

/-- `PersonReID.calculate_score`: one score per stored row, in store order.
`results` starts as the empty tensor and is only overwritten for the metric
strings `"cosine"` and `"euclidean"`; any other metric returns the empty
tensor.  A torch shape error on mismatched row lengths is modelled as
`"DimensionMismatchError"`. -/
def PersonReID.calculate_score (st : PersonReID) (S : TorchScorers)
    (target : Vec) (score : String) : Except String (List ℚ) :=
  if score = "cosine" then
    if st.embeddings.all (fun e => e.length = target.length) then
      Except.ok (st.embeddings.map (fun e => S.cos_scorer target e))
    else Except.error "DimensionMismatchError"
  else if score = "euclidean" then
    if st.embeddings.all (fun e => e.length = target.length) then
      Except.ok (st.embeddings.map (fun e => S.cdist target e))
    else Except.error "DimensionMismatchError"
  else Except.ok []

/-- `PersonReID._update_embeddings` (Lean identifiers cannot start with an
underscore): replace the store, append the id when the store grew past the
id list, bump the counter when it equals the id just recorded, and finally
the source's `assert len(self.ids) == self.embeddings.shape[0]`. -/
def PersonReID.update_embeddings (st : PersonReID) (new_embeddings : List Vec)
    (target_id : Nat) : Except String PersonReID :=
  let st1 : PersonReID := { st with embeddings := new_embeddings }
  let st2 : PersonReID :=
    if new_embeddings.length > st1.ids.length then
      { st1 with ids := st1.ids ++ [target_id] }
    else st1
  let st3 : PersonReID :=
    if st2.current_max_id = target_id then
      { st2 with current_max_id := st2.current_max_id + 1 }
    else st2
  if st3.ids.length = st3.embeddings.length then Except.ok st3
  else Except.error "AssertionError"

/-- `PersonReID.identify`: the default id is `current_max_id`; with a
non-empty store the cosine scores are computed, `torch.max` picks the best
match, and a top score strictly above the normal threshold replaces the id
by `self.ids[top_ppl]` (out-of-range indexing is Python's `IndexError`).
The target row is concatenated to the store (or becomes the store when it
was empty), and on `do_update` the state is committed via
`_update_embeddings`.  The decided id is returned either way. -/
def PersonReID.identify (st : PersonReID) (S : TorchScorers) (target : Vec)
    (do_update : Bool) : Except String (Nat × PersonReID) :=
  if st.embeddings.length ≠ 0 then
    match st.calculate_score S target "cosine" with
    | Except.error e => Except.error e
    | Except.ok results =>
      let top := torchMax results
      match (if top.1 > CONFIDENT_THRESHOLD.normal then
               match st.ids[top.2]? with
               | some v => Except.ok v
               | none => Except.error "IndexError"
             else Except.ok st.current_max_id : Except String Nat) with
      | Except.error e => Except.error e
      | Except.ok target_id =>
        let new_embeddings := st.embeddings ++ [target]
        if do_update then
          (st.update_embeddings new_embeddings target_id).map
            (fun st2 => (target_id, st2))
        else Except.ok (target_id, st)
  else
    let target_id := st.current_max_id
    let new_embeddings := [target]
    if do_update then
      (st.update_embeddings new_embeddings target_id).map
        (fun st2 => (target_id, st2))
    else Except.ok (target_id, st)

/-- The cosine scores of `target` against the whole store, in store order:
the value `calculate_score` wraps in `Except.ok` when the shapes agree. -/
def scoresOf (S : TorchScorers) (st : PersonReID) (target : Vec) : List ℚ :=
  st.embeddings.map (fun e => S.cos_scorer target e)

/-- The best match `torch.max` selects: top score and first index. -/
def bestOf (S : TorchScorers) (st : PersonReID) (target : Vec) : ℚ × Nat :=
  torchMax (scoresOf S st target)

/-- The tentative identity `identify` decides for a non-empty store: the
best-match label on a strictly-above-threshold top score, else the counter. -/
def tentativeId (S : TorchScorers) (st : PersonReID) (target : Vec) : Nat :=
  if (bestOf S st target).1 > CONFIDENT_THRESHOLD.normal then
    st.ids.getD (bestOf S st target).2 0
  else st.current_max_id

/-- States reachable from the unseeded constructor by successful `identify`
calls (committing or not) against a fixed scorer pair.  A failing call
raises before any state mutation, so it leaves the state unchanged and
need not appear as a step. -/
inductive Reachable (S : TorchScorers) : PersonReID → Prop
  | init : Reachable S (PersonReID.init none)
  | step {st st' : PersonReID} {t : Vec} {b : Bool} {id : Nat} :
      Reachable S st → st.identify S t b = Except.ok (id, st') →
      Reachable S st'

/-- The data-model invariant of the spec: the label list and the store have
equal length, and every stored label is strictly below the counter. -/
def Inv (st : PersonReID) : Prop :=
  st.ids.length = st.embeddings.length ∧
  ∀ id ∈ st.ids, id < st.current_max_id

/-! ### Properties of `torchMax` -/

theorem torchMax_snd_lt : ∀ (l : List ℚ), l ≠ [] → (torchMax l).2 < l.length := by
  intro l
  induction l with
  | nil => simp
  | cons x xs ih =>
    cases xs with
    | nil => intro _; simp [torchMax]
    | cons y ys =>
      intro _
      simp only [torchMax]
      split
      · simpa using Nat.succ_lt_succ (ih (by simp))
      · simp

theorem torchMax_getD : ∀ (l : List ℚ), l ≠ [] →
    l.getD (torchMax l).2 0 = (torchMax l).1 := by
  intro l
  induction l with
  | nil => simp
  | cons x xs ih =>
    cases xs with
    | nil => intro _; simp [torchMax]
    | cons y ys =>
      intro _
      simp only [torchMax]
      split
      · simpa using ih (by simp)
      · simp

theorem torchMax_le : ∀ (l : List ℚ) (k : Nat), k < l.length →
    l.getD k 0 ≤ (torchMax l).1 := by
  intro l
  induction l with
  | nil => simp
  | cons x xs ih =>
    cases xs with
    | nil =>
      intro k hk
      simp only [List.length_singleton, Nat.lt_one_iff] at hk
      subst hk
      simp [torchMax]
    | cons y ys =>
      intro k hk
      simp only [torchMax]
      split
      case isTrue h =>
        match k with
        | 0 => simpa using le_of_lt h
        | k + 1 => simpa using ih k (by simpa using hk)
      case isFalse h =>
        match k with
        | 0 => simp
        | k + 1 =>
          have := ih k (by simpa using hk)
          simp only [List.getD_cons_succ] at *
          exact le_trans this (le_of_not_lt h)

theorem torchMax_lt_of_lt_snd : ∀ (l : List ℚ) (k : Nat), k < (torchMax l).2 →
    l.getD k 0 < (torchMax l).1 := by
  intro l
  induction l with
  | nil => simp [torchMax]
  | cons x xs ih =>
    cases xs with
    | nil => simp [torchMax]
    | cons y ys =>
      intro k hk
      simp only [torchMax] at hk ⊢
      split
      case isTrue h =>
        split at hk
        case isTrue h2 =>
          match k with
          | 0 => simpa using h
          | k + 1 => simpa using ih k (by simpa using hk)
        case isFalse h2 => exact absurd h h2
      case isFalse h =>
        split at hk
        case isTrue h2 => exact absurd h2 h
        case isFalse h2 => exact absurd hk (Nat.not_lt_zero k)

/-- `torch.max` selects exactly the first position at which the maximum of
the score list is attained. -/
theorem torchMax_eq_of_first_max (l : List ℚ) (i : Nat) (hi : i < l.length)
    (hfirst : ∀ k, k < i → l.getD k 0 < l.getD i 0)
    (hmax : ∀ k, k < l.length → l.getD k 0 ≤ l.getD i 0) :
    torchMax l = (l.getD i 0, i) := by
  have hne : l ≠ [] := by
    intro h
    rw [h] at hi
    exact absurd hi (by simp)
  have h1 : (torchMax l).2 < l.length := torchMax_snd_lt l hne
  have h2 : l.getD (torchMax l).2 0 = (torchMax l).1 := torchMax_getD l hne
  have hval : (torchMax l).1 = l.getD i 0 := by
    have ha : l.getD (torchMax l).2 0 ≤ l.getD i 0 := hmax _ h1
    have hb : l.getD i 0 ≤ (torchMax l).1 := torchMax_le l i hi
    exact le_antisymm (h2 ▸ ha) hb
  have hidx : (torchMax l).2 = i := by
    rcases Nat.lt_trichotomy (torchMax l).2 i with h | h | h
    · have hlt := hfirst _ h
      rw [h2, hval] at hlt
      exact absurd hlt (lt_irrefl _)
    · exact h
    · have := torchMax_lt_of_lt_snd l i h
      rw [hval] at this
      exact absurd this (lt_irrefl _)
  calc torchMax l = ((torchMax l).1, (torchMax l).2) := rfl
    _ = (l.getD i 0, i) := by rw [hval, hidx]

/-! ### Characterization of `calculate_score`, `update_embeddings`, `identify` -/

theorem calculate_score_cosine_ok (st : PersonReID) (S : TorchScorers) (target : Vec)
    (h : ∀ e ∈ st.embeddings, e.length = target.length) :
    st.calculate_score S target "cosine" = Except.ok (scoresOf S st target) := by
  have hall : st.embeddings.all (fun e => e.length = target.length) = true := by
    simp only [List.all_eq_true, decide_eq_true_eq]
    exact h
  simp [PersonReID.calculate_score, hall, scoresOf]

theorem calculate_score_cosine_error (st : PersonReID) (S : TorchScorers) (target : Vec)
    (h : ¬ ∀ e ∈ st.embeddings, e.length = target.length) :
    st.calculate_score S target "cosine" = Except.error "DimensionMismatchError" := by
  cases hall : st.embeddings.all (fun e => e.length = target.length) with
  | true =>
    refine absurd (fun e he => ?_) h
    have := (List.all_eq_true.mp hall) e he
    simpa using this
  | false => simp [PersonReID.calculate_score, hall]

theorem update_embeddings_append (st : PersonReID) (target : Vec) (tid : Nat)
    (hlen : st.ids.length = st.embeddings.length) :
    st.update_embeddings (st.embeddings ++ [target]) tid =
      Except.ok (PersonReID.mk (st.embeddings ++ [target]) (st.ids ++ [tid])
        (if st.current_max_id = tid then st.current_max_id + 1
         else st.current_max_id)) := by
  have hgt : (st.embeddings ++ [target]).length > st.ids.length := by
    simp [hlen]
  have hassert : (st.ids ++ [tid]).length = (st.embeddings ++ [target]).length := by
    simp [hlen]
  simp only [PersonReID.update_embeddings]
  rw [if_pos hgt]
  split <;> simp_all

theorem identify_empty_eq (st : PersonReID) (S : TorchScorers) (target : Vec) (b : Bool)
    (he : st.embeddings = []) (hi : st.ids = []) :
    st.identify S target b =
      Except.ok (st.current_max_id,
        if b then
          PersonReID.mk [target] [st.current_max_id] (st.current_max_id + 1)
        else st) := by
  obtain ⟨emb, ids, cmi⟩ := st
  simp only [PersonReID.mk.injEq] at he hi ⊢
  subst he
  subst hi
  cases b <;>
    simp [PersonReID.identify, PersonReID.update_embeddings, Except.map]

theorem identify_nonempty_eq (st : PersonReID) (S : TorchScorers) (target : Vec) (b : Bool)
    (hne : st.embeddings ≠ [])
    (hdim : ∀ e ∈ st.embeddings, e.length = target.length)
    (hlen : st.ids.length = st.embeddings.length) :
    st.identify S target b =
      Except.ok (tentativeId S st target,
        if b then
          PersonReID.mk (st.embeddings ++ [target])
            (st.ids ++ [tentativeId S st target])
            (if st.current_max_id = tentativeId S st target then
               st.current_max_id + 1
             else st.current_max_id)
        else st) := by
  have hlen0 : st.embeddings.length ≠ 0 := by
    simpa [List.length_eq_zero] using hne
  have hscore := calculate_score_cosine_ok st S target hdim
  have hsne : scoresOf S st target ≠ [] := by
    simpa [scoresOf, List.map_eq_nil_iff] using hne
  have htop : (torchMax (scoresOf S st target)).2 < st.ids.length := by
    have := torchMax_snd_lt _ hsne
    simpa [scoresOf, hlen] using this
  have hidx : st.ids[(torchMax (scoresOf S st target)).2]? =
      some (st.ids.getD (torchMax (scoresOf S st target)).2 0) := by
    rw [List.getElem?_eq_getElem htop, List.getD_eq_getElem st.ids 0 htop]
  simp only [PersonReID.identify]
  rw [if_pos hlen0, hscore]
  by_cases hthr : (torchMax (scoresOf S st target)).1 > CONFIDENT_THRESHOLD.normal
  · have htid : tentativeId S st target =
        st.ids.getD (torchMax (scoresOf S st target)).2 0 := by
      simp [tentativeId, bestOf, if_pos hthr]
    rw [htid]
    simp only [if_pos hthr, hidx]
    cases b with
    | false => simp
    | true =>
      simp only [if_pos rfl]
      rw [update_embeddings_append st target _ hlen]
      simp [Except.map]
  · have htid : tentativeId S st target = st.current_max_id := by
      simp [tentativeId, bestOf, if_neg hthr]
    rw [htid]
    simp only [if_neg hthr]
    cases b with
    | false => simp
    | true =>
      simp only [if_pos rfl]
      rw [update_embeddings_append st target _ hlen]
      simp [Except.map]

/-- Whenever `identify` raised before the update, the state is untouched; a
successful call from a state satisfying the length half of the invariant
has exactly these effects. -/
theorem identify_ok_step (st st' : PersonReID) (S : TorchScorers) (target : Vec)
    (b : Bool) (i : Nat)
    (hinv : Inv st) (h : st.identify S target b = Except.ok (i, st')) :
    (b = false → st' = st) ∧
    (b = true →
      st'.embeddings = st.embeddings ++ [target] ∧
      st'.ids = st.ids ++ [i] ∧
      st'.current_max_id =
        (if st.current_max_id = i then st.current_max_id + 1
         else st.current_max_id)) ∧
    (i = st.current_max_id ∨ i ∈ st.ids) := by
  by_cases he : st.embeddings = []
  · have hi : st.ids = [] := by
      have := hinv.1
      rw [he] at this
      simpa [List.length_eq_zero] using this
    rw [identify_empty_eq st S target b he hi] at h
    have h1 : i = st.current_max_id ∧
        st' = (if b then
          PersonReID.mk [target] [st.current_max_id] (st.current_max_id + 1)
        else st) := by
      have := h
      simp only [Except.ok.injEq, Prod.mk.injEq] at this
      exact ⟨this.1.symm, this.2.symm⟩
    obtain ⟨rfl, rfl⟩ := h1
    cases b with
    | false => simp
    | true => simp [he, hi]
  · by_cases hdim : ∀ e ∈ st.embeddings, e.length = target.length
    · rw [identify_nonempty_eq st S target b he hdim hinv.1] at h
      have h1 : i = tentativeId S st target ∧
          st' = (if b then
            PersonReID.mk (st.embeddings ++ [target])
              (st.ids ++ [tentativeId S st target])
              (if st.current_max_id = tentativeId S st target then
                 st.current_max_id + 1
               else st.current_max_id)
          else st) := by
        have := h
        simp only [Except.ok.injEq, Prod.mk.injEq] at this
        exact ⟨this.1.symm, this.2.symm⟩
      obtain ⟨rfl, rfl⟩ := h1
      have hmem : tentativeId S st target = st.current_max_id ∨
          tentativeId S st target ∈ st.ids := by
        by_cases hthr :
            (bestOf S st target).1 > CONFIDENT_THRESHOLD.normal
        · right
          have hsne : scoresOf S st target ≠ [] := by
            simpa [scoresOf, List.map_eq_nil_iff] using he
          have htop : (bestOf S st target).2 < st.ids.length := by
            have := torchMax_snd_lt _ hsne
            simpa [bestOf, scoresOf, hinv.1] using this
          have htid : tentativeId S st target =
              st.ids.getD (bestOf S st target).2 0 := by
            unfold tentativeId
            exact if_pos hthr
          rw [htid, List.getD_eq_getElem st.ids 0 htop]
          exact List.getElem_mem htop
        · left
          unfold tentativeId
          exact if_neg hthr
      refine ⟨?_, ?_, hmem⟩
      · intro hb
        subst hb
        simp
      · intro hb
        subst hb
        simp
    · have herr := calculate_score_cosine_error st S target hdim
      have : st.identify S target b = Except.error "DimensionMismatchError" := by
        have hlen0 : st.embeddings.length ≠ 0 := by
          simpa [List.length_eq_zero] using he
        simp only [PersonReID.identify]
        rw [if_pos hlen0, herr]
      rw [this] at h
      exact absurd h (by simp)

/-- Every state reachable from the unseeded constructor satisfies the
data-model invariant. -/
theorem reachable_inv (S : TorchScorers) (st : PersonReID)
    (h : Reachable S st) : Inv st := by
  induction h with
  | init => exact ⟨rfl, by simp [PersonReID.init]⟩
  | step hr heq ih =>
    obtain ⟨h0, h1, h2⟩ := identify_ok_step _ _ _ _ _ _ ih heq
    rename_i s s' t b i
    cases b with
    | false => rw [h0 rfl]; exact ih
    | true =>
      obtain ⟨he, hi, hc⟩ := h1 rfl
      constructor
      · rw [he, hi]
        simp [ih.1]
      · intro x hx
        rw [hi] at hx
        rw [hc]
        rcases List.mem_append.mp hx with hx | hx
        · have := ih.2 x hx
          split <;> omega
        · have hx' : x = i := by simpa using hx
          subst hx'
          rcases h2 with h2 | h2
          · rw [if_pos h2.symm]
            omega
          · have := ih.2 _ h2
            split <;> omega

/-! ### The claims -/

/-- C1: for every sequence of `identify` calls (in particular the committed
ones) on a matcher initialized empty with no seed, after each call completes
the number of stored embeddings equals the number of stored identity labels. -/
theorem reid_length_invariant (S : TorchScorers) (st : PersonReID)
    (h : Reachable S st) :
    st.ids.length = st.embeddings.length :=
  (reachable_inv S st h).1

theorem reid_length_invariant_witness :
    (PersonReID.mk [[(1:ℚ)]] [0] 1).ids.length =
      (PersonReID.mk [[(1:ℚ)]] [0] 1).embeddings.length :=
  reid_length_invariant ⟨fun _ _ => 0, fun _ _ => 0⟩
    (PersonReID.mk [[(1:ℚ)]] [0] 1)
    (Reachable.step Reachable.init
      (show (PersonReID.init none).identify ⟨fun _ _ => 0, fun _ _ => 0⟩
          [(1:ℚ)] true = Except.ok (0, PersonReID.mk [[(1:ℚ)]] [0] 1) from rfl))

/-- C3 (counterexample): a matcher initialized from a non-empty seed tensor
has Next-Identity Counter 0, not `max(seed_labels) + 1` (which would be at
least 1 for any non-empty sequence of non-negative seed labels); the
constructor accepts no seed labels at all. -/
theorem reid_seeded_counter_cx :
    (PersonReID.init (some [[(1:ℚ)]])).embeddings ≠ [] ∧
    (PersonReID.init (some [[(1:ℚ)]])).current_max_id = 0 ∧
    ¬ 1 ≤ (PersonReID.init (some [[(1:ℚ)]])).current_max_id := by
  refine ⟨?_, rfl, ?_⟩ <;> simp [PersonReID.init]

/-- C3 (amended): the Next-Identity Counter is initialized to 0 whether or
not the matcher is seeded with embeddings, and the Identity Label Sequence
always starts empty. -/
theorem reid_init_counter_zero (from_tensor : Option (List Vec)) :
    (PersonReID.init from_tensor).current_max_id = 0 ∧
    (PersonReID.init from_tensor).ids = [] :=
  ⟨rfl, rfl⟩

/-- C4: across identify calls on states reachable from an initially empty
matcher, the Next-Identity Counter never decreases; a committed call
increments it by exactly 1 when the decided identity is the fresh counter
value, and leaves it unchanged when the decision reuses a stored label; an
uncommitted call never changes it. -/
theorem reid_counter_monotone (S : TorchScorers) (st : PersonReID)
    (h : Reachable S st) (target : Vec) (b : Bool) (i : Nat)
    (st' : PersonReID)
    (hok : st.identify S target b = Except.ok (i, st')) :
    st.current_max_id ≤ st'.current_max_id ∧
    (b = true →
      (i = st.current_max_id →
        st'.current_max_id = st.current_max_id + 1) ∧
      (i ∈ st.ids → st'.current_max_id = st.current_max_id)) ∧
    (b = false → st'.current_max_id = st.current_max_id) := by
  have hinv := reachable_inv S st h
  obtain ⟨h0, h1, _⟩ := identify_ok_step st st' S target b i hinv hok
  cases b with
  | false =>
    rw [h0 rfl]
    exact ⟨le_refl _, by simp, fun _ => rfl⟩
  | true =>
    obtain ⟨_, _, hc⟩ := h1 rfl
    refine ⟨?_, ?_, by simp⟩
    · rw [hc]
      split <;> omega
    · intro _
      constructor
      · intro hi2
        rw [hc, if_pos hi2.symm]
      · intro hmem
        have hlt := hinv.2 i hmem
        rw [hc, if_neg (by omega)]

theorem reid_counter_monotone_witness :
    (PersonReID.mk [[(1:ℚ)]] [0] 1).current_max_id =
      (PersonReID.init none).current_max_id + 1 :=
  ((reid_counter_monotone ⟨fun _ _ => 0, fun _ _ => 0⟩
      (PersonReID.init none) Reachable.init [(1:ℚ)] true 0
      (PersonReID.mk [[(1:ℚ)]] [0] 1) rfl).2.1 rfl).1 rfl

/-- C5: `identify` on the freshly initialized, unseeded matcher returns the
initial counter value 0 whatever the target and whatever scoring primitives
are in use (no scoring occurs: the result does not depend on them), and a
committed call leaves a store with exactly one entry. -/
theorem reid_empty_store_identify (S S2 : TorchScorers) (target : Vec)
    (b : Bool) :
    (PersonReID.init none).identify S target b =
      Except.ok (0, if b then PersonReID.mk [target] [0] 1
                    else PersonReID.init none) ∧
    (PersonReID.init none).identify S target b =
      (PersonReID.init none).identify S2 target b ∧
    (PersonReID.mk [target] [0] 1).embeddings.length = 1 := by
  have h1 := identify_empty_eq (PersonReID.init none) S target b rfl rfl
  have h2 := identify_empty_eq (PersonReID.init none) S2 target b rfl rfl
  refine ⟨?_, ?_, rfl⟩
  · simpa [PersonReID.init] using h1
  · rw [h1, h2]

/-- C9: on every state reachable from an initially empty matcher, every
stored identity label is strictly below the Next-Identity Counter — the
invariant that makes the counter-update test in `_update_embeddings`
(`current_max_id == target_id`) distinguish fresh identities from reuses. -/
theorem reid_ids_lt_counter (S : TorchScorers) (st : PersonReID)
    (h : Reachable S st) :
    ∀ i ∈ st.ids, i < st.current_max_id :=
  (reachable_inv S st h).2

theorem reid_ids_lt_counter_witness :
    0 < (PersonReID.mk [[(1:ℚ)]] [0] 1).current_max_id :=
  reid_ids_lt_counter ⟨fun _ _ => 0, fun _ _ => 0⟩
    (PersonReID.mk [[(1:ℚ)]] [0] 1)
    (Reachable.step Reachable.init
      (show (PersonReID.init none).identify ⟨fun _ _ => 0, fun _ _ => 0⟩
          [(1:ℚ)] true = Except.ok (0, PersonReID.mk [[(1:ℚ)]] [0] 1) from rfl))
    0 (by simp)

/-- C2: with a non-empty store, `identify` decides a reuse of the best-match
label exactly when the top score is strictly greater than the normal
threshold; a top score equal to the threshold (and any top score not above
it) yields the current Next-Identity Counter value, i.e. a new identity. -/
theorem reid_threshold_strict (S : TorchScorers) (st : PersonReID)
    (target : Vec) (b : Bool)
    (hne : st.embeddings ≠ [])
    (hdim : ∀ e ∈ st.embeddings, e.length = target.length)
    (hlen : st.ids.length = st.embeddings.length) :
    (∃ st', st.identify S target b =
      Except.ok (tentativeId S st target, st')) ∧
    ((bestOf S st target).1 > CONFIDENT_THRESHOLD.normal →
      tentativeId S st target = st.ids.getD (bestOf S st target).2 0) ∧
    (¬ (bestOf S st target).1 > CONFIDENT_THRESHOLD.normal →
      tentativeId S st target = st.current_max_id) ∧
    ((bestOf S st target).1 = CONFIDENT_THRESHOLD.normal →
      tentativeId S st target = st.current_max_id) := by
  refine ⟨⟨_, identify_nonempty_eq st S target b hne hdim hlen⟩, ?_, ?_, ?_⟩
  · intro hthr
    unfold tentativeId
    exact if_pos hthr
  · intro hthr
    unfold tentativeId
    exact if_neg hthr
  · intro heq
    have hnot : ¬ (bestOf S st target).1 > CONFIDENT_THRESHOLD.normal := by
      rw [heq]
      exact lt_irrefl _
    unfold tentativeId
    exact if_neg hnot

theorem reid_threshold_strict_witness :
    tentativeId ⟨fun _ _ => (7:ℚ)/10, fun _ _ => 0⟩
        (PersonReID.mk [[(1:ℚ)]] [0] 1) [(1:ℚ)] =
      (PersonReID.mk [[(1:ℚ)]] [0] 1).current_max_id :=
  (reid_threshold_strict ⟨fun _ _ => (7:ℚ)/10, fun _ _ => 0⟩
      (PersonReID.mk [[(1:ℚ)]] [0] 1) [(1:ℚ)] false
      (by simp) (by simp) rfl).2.2.2
    (by norm_num [bestOf, scoresOf, torchMax, CONFIDENT_THRESHOLD])

/-- C6: with a non-empty store, when the maximum cosine score is attained at
two store indices i < j (with i the first occurrence) and exceeds the normal
threshold, `identify` returns the label stored at the lowest such index i. -/
theorem reid_tie_break (S : TorchScorers) (st : PersonReID) (target : Vec)
    (b : Bool) (i j : Nat)
    (hdim : ∀ e ∈ st.embeddings, e.length = target.length)
    (hlen : st.ids.length = st.embeddings.length)
    (hij : i < j) (hj : j < (scoresOf S st target).length)
    (_heq : (scoresOf S st target).getD i 0 = (scoresOf S st target).getD j 0)
    (hfirst : ∀ k, k < i →
      (scoresOf S st target).getD k 0 < (scoresOf S st target).getD i 0)
    (hmax : ∀ k, k < (scoresOf S st target).length →
      (scoresOf S st target).getD k 0 ≤ (scoresOf S st target).getD i 0)
    (hthr : (scoresOf S st target).getD i 0 > CONFIDENT_THRESHOLD.normal) :
    ∃ st', st.identify S target b = Except.ok (st.ids.getD i 0, st') := by
  have hi : i < (scoresOf S st target).length := lt_trans hij hj
  have hbest : bestOf S st target = ((scoresOf S st target).getD i 0, i) :=
    torchMax_eq_of_first_max _ i hi hfirst hmax
  have hne : st.embeddings ≠ [] := by
    intro h
    simp [scoresOf, h] at hj
  have htid : tentativeId S st target = st.ids.getD i 0 := by
    unfold tentativeId
    rw [hbest]
    exact if_pos hthr
  exact ⟨_, htid ▸ identify_nonempty_eq st S target b hne hdim hlen⟩

theorem reid_tie_break_witness :
    ∃ st', (PersonReID.mk [[(1:ℚ)], [(1:ℚ)]] [5, 7] 9).identify
        ⟨fun _ _ => (8:ℚ)/10, fun _ _ => 0⟩ [(1:ℚ)] false =
      Except.ok (5, st') :=
  reid_tie_break ⟨fun _ _ => (8:ℚ)/10, fun _ _ => 0⟩
    (PersonReID.mk [[(1:ℚ)], [(1:ℚ)]] [5, 7] 9) [(1:ℚ)] false 0 1
    (by simp) rfl (by simp) (by simp [scoresOf])
    (by simp [scoresOf])
    (fun k hk => absurd hk (Nat.not_lt_zero k))
    (by
      intro k hk
      simp only [scoresOf, List.map_cons, List.map_nil, List.length_cons,
        List.length_nil] at hk ⊢
      interval_cases k <;> simp)
    (by norm_num [scoresOf, CONFIDENT_THRESHOLD])

/-- C7: `identify` with `commit = false` never changes the state (store,
labels, counter), and returns exactly the identity label that a committed
call from the same state would return; being a pure function of the state,
repeated dry-run calls with the same target agree. -/
theorem reid_dry_run (S : TorchScorers) (st : PersonReID) (target : Vec)
    (hlen : st.ids.length = st.embeddings.length) :
    (st.identify S target false).map Prod.fst =
      (st.identify S target true).map Prod.fst ∧
    (st.identify S target false).map Prod.snd =
      (st.identify S target false).map (fun _ => st) := by
  by_cases he : st.embeddings = []
  · have hi : st.ids = [] := by
      have := hlen
      rw [he] at this
      simpa [List.length_eq_zero] using this
    rw [identify_empty_eq st S target false he hi,
        identify_empty_eq st S target true he hi]
    simp [Except.map]
  · by_cases hdim : ∀ e ∈ st.embeddings, e.length = target.length
    · rw [identify_nonempty_eq st S target false he hdim hlen,
          identify_nonempty_eq st S target true he hdim hlen]
      simp [Except.map]
    · have herr := calculate_score_cosine_error st S target hdim
      have hlen0 : st.embeddings.length ≠ 0 := by
        simpa [List.length_eq_zero] using he
      have h1 : st.identify S target false =
          Except.error "DimensionMismatchError" := by
        simp only [PersonReID.identify]
        rw [if_pos hlen0, herr]
      have h2 : st.identify S target true =
          Except.error "DimensionMismatchError" := by
        simp only [PersonReID.identify]
        rw [if_pos hlen0, herr]
      rw [h1, h2]
      simp [Except.map]

theorem reid_dry_run_witness :
    ((PersonReID.mk [[(1:ℚ)]] [0] 1).identify
        ⟨fun _ _ => 0, fun _ _ => 0⟩ [(1:ℚ)] false).map Prod.fst =
      ((PersonReID.mk [[(1:ℚ)]] [0] 1).identify
        ⟨fun _ _ => 0, fun _ _ => 0⟩ [(1:ℚ)] true).map Prod.fst ∧
    ((PersonReID.mk [[(1:ℚ)]] [0] 1).identify
        ⟨fun _ _ => 0, fun _ _ => 0⟩ [(1:ℚ)] false).map Prod.snd =
      ((PersonReID.mk [[(1:ℚ)]] [0] 1).identify
        ⟨fun _ _ => 0, fun _ _ => 0⟩ [(1:ℚ)] false).map
        (fun _ => PersonReID.mk [[(1:ℚ)]] [0] 1) :=
  reid_dry_run ⟨fun _ _ => 0, fun _ _ => 0⟩
    (PersonReID.mk [[(1:ℚ)]] [0] 1) [(1:ℚ)] rfl

/-- C8: with a store whose rows all have dimensionality D, the scoring step
(and hence `identify`) fails exactly when the store is non-empty and the
target's dimensionality differs from D, and the failure is
`DimensionMismatchError`; with an empty store `identify` always succeeds. -/
theorem reid_dimension_mismatch (S : TorchScorers) (st : PersonReID)
    (target : Vec) (b : Bool) (D : Nat)
    (hlen : st.ids.length = st.embeddings.length)
    (hD : ∀ e ∈ st.embeddings, e.length = D) :
    (st.embeddings = [] → ∃ r, st.identify S target b = Except.ok r) ∧
    (st.embeddings ≠ [] →
      ((∃ msg, st.identify S target b = Except.error msg) ↔
        target.length ≠ D) ∧
      ((∃ msg, st.calculate_score S target "cosine" = Except.error msg) ↔
        target.length ≠ D) ∧
      (∀ msg, st.identify S target b = Except.error msg →
        msg = "DimensionMismatchError")) := by
  constructor
  · intro he
    have hi : st.ids = [] := by
      have := hlen
      rw [he] at this
      simpa [List.length_eq_zero] using this
    exact ⟨_, identify_empty_eq st S target b he hi⟩
  · intro hne
    by_cases ht : target.length = D
    · have hdim : ∀ e ∈ st.embeddings, e.length = target.length := by
        intro e hee
        rw [hD e hee, ht]
      have hok := identify_nonempty_eq st S target b hne hdim hlen
      have hoks := calculate_score_cosine_ok st S target hdim
      refine ⟨?_, ?_, ?_⟩
      · refine iff_of_false ?_ (fun hcon => hcon ht)
        rintro ⟨msg, hmsg⟩
        rw [hok] at hmsg
        exact absurd hmsg (by simp)
      · refine iff_of_false ?_ (fun hcon => hcon ht)
        rintro ⟨msg, hmsg⟩
        rw [hoks] at hmsg
        exact absurd hmsg (by simp)
      · intro msg hmsg
        rw [hok] at hmsg
        exact absurd hmsg (by simp)
    · have hdim : ¬ ∀ e ∈ st.embeddings, e.length = target.length := by
        intro hall
        obtain ⟨e0, he0⟩ := List.exists_mem_of_ne_nil st.embeddings hne
        exact ht ((hall e0 he0).symm.trans (hD e0 he0))
      have herr := calculate_score_cosine_error st S target hdim
      have hlen0 : st.embeddings.length ≠ 0 := by
        simpa [List.length_eq_zero] using hne
      have hierr : st.identify S target b =
          Except.error "DimensionMismatchError" := by
        simp only [PersonReID.identify]
        rw [if_pos hlen0, herr]
      refine ⟨iff_of_true ⟨_, hierr⟩ ht, iff_of_true ⟨_, herr⟩ ht, ?_⟩
      intro msg hmsg
      rw [hierr] at hmsg
      simpa using hmsg.symm

theorem reid_dimension_mismatch_witness :
    (PersonReID.mk [[(1:ℚ), 2]] [0] 1).identify
        ⟨fun _ _ => 0, fun _ _ => 0⟩ [(1:ℚ)] false =
      Except.error "DimensionMismatchError" := by
  have h := reid_dimension_mismatch ⟨fun _ _ => 0, fun _ _ => 0⟩
    (PersonReID.mk [[(1:ℚ), 2]] [0] 1) [(1:ℚ)] false 2 rfl (by simp)
  obtain ⟨msg, hmsg⟩ := (h.2 (by simp)).1.mpr (by simp)
  rw [(h.2 (by simp)).2.2 msg hmsg] at hmsg
  exact hmsg

/-- C10: for any metric string other than `"cosine"` and `"euclidean"`,
`calculate_score` returns the empty score sequence instead of failing; as a
pure read it leaves the matcher state untouched. -/
theorem reid_unknown_metric (S : TorchScorers) (st : PersonReID)
    (target : Vec) (metric : String)
    (h1 : metric ≠ "cosine") (h2 : metric ≠ "euclidean") :
    st.calculate_score S target metric = Except.ok [] := by
  simp [PersonReID.calculate_score, h1, h2]

theorem reid_unknown_metric_witness :
    (PersonReID.mk [[(1:ℚ)]] [0] 1).calculate_score
        ⟨fun _ _ => 0, fun _ _ => 0⟩ [(1:ℚ)] "manhattan" = Except.ok [] :=
  reid_unknown_metric ⟨fun _ _ => 0, fun _ _ => 0⟩
    (PersonReID.mk [[(1:ℚ)]] [0] 1) [(1:ℚ)] "manhattan"
    (by decide) (by decide)

end RealtimeReid
